import Mathlib

/-!
# Verification of `findStringInSnakingPuzzle`

A shallow embedding of the snaking-puzzle word search from the katas
repository, together with proofs about it.

The JavaScript source turns the puzzle (an array of strings) into an array
of arrays of characters, scans every cell for the query's first character,
and from each matching cell runs a recursive backtracking search
(`snakeFind`) over the four direction helpers `getTopLetter`,
`getRightLetter`, `getBottomLetter`, `getLeftLetter`, with a `blockedCells`
list that forbids revisiting a cell of the path under construction.

Modelling choices, all mirroring the source:
* rows are `List Char` (the source's `el.split('')`), the whole grid is
  `List (List Char)`; the public wrapper takes `List String` and a `String`
  exactly like the source and converts via `String.toList`;
* a JavaScript array probe `arr[i]` that may be `undefined` becomes
  `List.get?`; the `letter` field of a letter object may be `undefined` in
  the source (top/bottom probe into a row that exists but is shorter), so
  it is an `Option Char` here;
* `charAt(0)` of the empty string is the empty string, which is equal to no
  one-character cell; the scan condition is therefore modelled with
  `List.head? : Option Char`, where `none` matches no cell;
* the source's `blockedCells.push`/`pop` discipline means every recursive
  call sees exactly `blockedCells ++ [newCell]`, which is how the recursion
  is written here; recursion is structural on the remaining query
  (`searchStr.slice(1)`), so the function is total by construction.
-/

/-- A letter object as built by the source's `getLetterObj`: the character
found at the probed cell (`undefined`, i.e. `none`, when the probed row
exists but is shorter than the probed column), and the probed coordinates. -/
structure LetterObj where
  letter : Option Char
  row : Nat
  coll : Nat
  deriving Repr, DecidableEq

/-- `getLetterObj` from the source: read `puzzleArr[row][coll]`.  Call sites
guarantee the row exists; a column beyond the row's length yields
`letter = none` (the source's `undefined`). -/
def getLetterObj (puzzleArr : List (List Char)) (row coll : Nat) : LetterObj :=
  { letter := (puzzleArr.getD row []).get? coll, row := row, coll := coll }

/-- `getTopLetter` from the source: `if (!puzzleArr[--row]) return null`.
Row `-1` (here: `row = 0`) and rows past the end are `undefined`, hence
`null`; an existing row is an array, always truthy. -/
def getTopLetter (puzzleArr : List (List Char)) (row coll : Nat) : Option LetterObj :=
  match row with
  | 0 => none
  | r + 1 =>
    match puzzleArr.get? r with
    | none => none
    | some _ => some (getLetterObj puzzleArr r coll)

/-- `getRightLetter` from the source: `if (!puzzleArr[row][++coll]) return
null`.  The probed character is a one-character string in the source, which
is truthy exactly when it exists. -/
def getRightLetter (puzzleArr : List (List Char)) (row coll : Nat) : Option LetterObj :=
  match (puzzleArr.getD row []).get? (coll + 1) with
  | none => none
  | some _ => some (getLetterObj puzzleArr row (coll + 1))

/-- `getBottomLetter` from the source: `if (!puzzleArr[++row]) return null`. -/
def getBottomLetter (puzzleArr : List (List Char)) (row coll : Nat) : Option LetterObj :=
  match puzzleArr.get? (row + 1) with
  | none => none
  | some _ => some (getLetterObj puzzleArr (row + 1) coll)

/-- `getLeftLetter` from the source: `if (!puzzleArr[row][--coll]) return
null`.  Column `-1` (here: `coll = 0`) is `undefined`, hence `null`. -/
def getLeftLetter (puzzleArr : List (List Char)) (row coll : Nat) : Option LetterObj :=
  match coll with
  | 0 => none
  | c + 1 =>
    match (puzzleArr.getD row []).get? c with
    | none => none
    | some _ => some (getLetterObj puzzleArr row c)

/-- The `lettersAround` computation inside the source's `snakeFind`: probe
the four directions (top, right, bottom, left, in the source's fixed
order), drop `null`s and letters different from `findLetter`, then drop
cells present in `blockedCells`. -/
def candidates (puzzleArr : List (List Char)) (row coll : Nat) (findLetter : Char)
    (blockedCells : List (Nat × Nat)) : List LetterObj :=
  (([getTopLetter puzzleArr row coll, getRightLetter puzzleArr row coll,
      getBottomLetter puzzleArr row coll, getLeftLetter puzzleArr row coll].filterMap id).filter
    (fun el => el.letter == some findLetter)).filter
    (fun el => blockedCells.all (fun bc => bc.1 != el.row || bc.2 != el.coll))

/-- The source's recursive `snakeFind`: succeed when the remaining query is
empty, otherwise try every eligible neighbour in order, each with the
neighbour appended to `blockedCells` (the source's `push` before the
recursive call, undone by `pop` on failure). -/
def snakeFind (puzzleArr : List (List Char)) (row coll : Nat) (searchStr : List Char)
    (blockedCells : List (Nat × Nat)) : Bool :=
  match searchStr with
  | [] => true
  | findLetter :: rest =>
    (candidates puzzleArr row coll findLetter blockedCells).any
      (fun el => snakeFind puzzleArr el.row el.coll rest (blockedCells ++ [(el.row, el.coll)]))

/-- The body of `findStringInSnakingPuzzle` on the character-array grid:
scan the cells in row-major order, and from every cell equal to
`searchStr.charAt(0)` start `snakeFind` on `searchStr.slice(1)` with the
start cell blocked.  `firstChar` is `head?`: for the empty query the
source's `charAt(0)` is the empty string, equal to no one-character cell,
modelled by `none`. -/
def findStringCore (puzzleArr : List (List Char)) (searchStr : List Char) : Bool :=
  let firstChar := searchStr.head?
  (List.range puzzleArr.length).any fun row =>
    (List.range (puzzleArr.getD row []).length).any fun coll =>
      ((puzzleArr.getD row []).get? coll == firstChar) &&
        snakeFind puzzleArr row coll searchStr.tail [(row, coll)]

/-- `findStringInSnakingPuzzle` from the source: split every row of the
puzzle into characters and run the scan. -/
def findStringInSnakingPuzzle (puzzle : List String) (searchStr : String) : Bool :=
  findStringCore (puzzle.map String.toList) searchStr.toList

/-! ## The specification side: simple snake paths -/

/-- The character stored at cell `(row, coll)` of the grid, when that cell
exists. -/
def getCell (puzzleArr : List (List Char)) (rc : Nat × Nat) : Option Char :=
  (puzzleArr.getD rc.1 []).get? rc.2

/-- Four-directional adjacency of cell coordinates: the two cells differ by
exactly one unit in exactly one axis (no diagonals). -/
def Adjacent (a b : Nat × Nat) : Prop :=
  (a.1 = b.1 ∧ (a.2 + 1 = b.2 ∨ b.2 + 1 = a.2)) ∨
    (a.2 = b.2 ∧ (a.1 + 1 = b.1 ∨ b.1 + 1 = a.1))

/-- The path `p` spells the string `q`: the two lists have the same length
and every cell of `p` stores (hence in particular exists in the grid) the
corresponding character of `q`. -/
def Spells (puzzleArr : List (List Char)) (p : List (Nat × Nat)) (q : List Char) : Prop :=
  List.Forall₂ (fun rc ch => getCell puzzleArr rc = some ch) p q

/-- A simple snake path spelling `q` exists in the grid: a non-empty
sequence of cells, consecutive ones four-directionally adjacent, no cell
repeated, whose characters are exactly `q`. -/
def SnakePathExists (puzzleArr : List (List Char)) (q : List Char) : Prop :=
  ∃ p : List (Nat × Nat), p ≠ [] ∧ p.Chain' Adjacent ∧ p.Nodup ∧ Spells puzzleArr p q

/-- Row-major enumeration of the (possibly ragged) grid's valid cell
coordinates, mirroring the double scan loop of the source. -/
def cells (puzzleArr : List (List Char)) : List (Nat × Nat) :=
  (List.range puzzleArr.length).flatMap fun row =>
    (List.range (puzzleArr.getD row []).length).map fun coll => (row, coll)

/-- The character at a cell, with a default for out-of-range coordinates
(used only to state list-level facts; in-range cells agree with
`getCell`). -/
def cellChar (puzzleArr : List (List Char)) (rc : Nat × Nat) : Char :=
  (puzzleArr.getD rc.1 []).getD rc.2 default

/-- Number of rows of the grid. -/
def rowCount (puzzleArr : List (List Char)) : Nat := puzzleArr.length

/-- Number of columns of the grid, read off the first row as the spec
does. -/
def columnCount (puzzleArr : List (List Char)) : Nat := (puzzleArr.headD []).length

/-- The grid is rectangular: every row has the common column count. -/
def Rectangular (puzzleArr : List (List Char)) : Prop :=
  ∀ row ∈ puzzleArr, row.length = columnCount puzzleArr

/-- All characters stored in the grid, row by row. -/
def gridChars (puzzle : List String) : List Char :=
  (puzzle.map String.toList).flatten

/-! ## Basic facts about cells and the direction helpers -/

theorem getCell_lt {g : List (List Char)} {r c : Nat} {ch : Char}
    (h : getCell g (r, c) = some ch) : r < g.length ∧ c < (g.getD r []).length := by
  have hc : c < (g.getD r []).length := (List.get?_eq_some.mp h).1
  refine ⟨?_, hc⟩
  by_contra hr
  rw [List.getD_eq_default _ _ (Nat.le_of_not_lt hr)] at hc
  exact absurd hc (by simp)

theorem getCell_isSome_of_lt {g : List (List Char)} {r c : Nat}
    (_hr : r < g.length) (hc : c < (g.getD r []).length) :
    ∃ ch, getCell g (r, c) = some ch := by
  rcases h : (g.getD r []).get? c with _ | ch
  · exact absurd (List.get?_eq_none.mp h) (Nat.not_le_of_lt hc)
  · exact ⟨ch, h⟩

@[simp] theorem getLetterObj_letter (g : List (List Char)) (r c : Nat) :
    (getLetterObj g r c).letter = getCell g (r, c) := rfl

@[simp] theorem getLetterObj_row (g : List (List Char)) (r c : Nat) :
    (getLetterObj g r c).row = r := rfl

@[simp] theorem getLetterObj_coll (g : List (List Char)) (r c : Nat) :
    (getLetterObj g r c).coll = c := rfl

theorem getTopLetter_eq_some {g : List (List Char)} {r c : Nat} {el : LetterObj} :
    getTopLetter g r c = some el ↔
      ∃ r', r = r' + 1 ∧ r' < g.length ∧ el = getLetterObj g r' c := by
  cases r with
  | zero => simp [getTopLetter]
  | succ r' =>
    rcases h : g.get? r' with _ | row
    · have := List.get?_eq_none.mp h
      simp only [getTopLetter, h]
      constructor
      · intro hfalse; exact absurd hfalse (by simp)
      · rintro ⟨r'', heq, hlt, _⟩
        omega
    · have hlt : r' < g.length := (List.get?_eq_some.mp h).1
      simp only [getTopLetter, h]
      constructor
      · intro he; exact ⟨r', rfl, hlt, (Option.some.injEq _ _ ▸ he).symm⟩
      · rintro ⟨r'', heq, _, hel⟩
        have : r'' = r' := by omega
        subst this; subst hel; rfl

theorem getRightLetter_eq_some {g : List (List Char)} {r c : Nat} {el : LetterObj} :
    getRightLetter g r c = some el ↔
      c + 1 < (g.getD r []).length ∧ el = getLetterObj g r (c + 1) := by
  rcases h : (g.getD r []).get? (c + 1) with _ | ch
  · have := List.get?_eq_none.mp h
    simp only [getRightLetter, h]
    constructor
    · intro hfalse; exact absurd hfalse (by simp)
    · rintro ⟨hlt, _⟩; omega
  · have hlt : c + 1 < (g.getD r []).length := (List.get?_eq_some.mp h).1
    simp only [getRightLetter, h]
    constructor
    · intro he; exact ⟨hlt, (Option.some.injEq _ _ ▸ he).symm⟩
    · rintro ⟨_, hel⟩; subst hel; rfl

theorem getBottomLetter_eq_some {g : List (List Char)} {r c : Nat} {el : LetterObj} :
    getBottomLetter g r c = some el ↔
      r + 1 < g.length ∧ el = getLetterObj g (r + 1) c := by
  rcases h : g.get? (r + 1) with _ | row
  · have := List.get?_eq_none.mp h
    simp only [getBottomLetter, h]
    constructor
    · intro hfalse; exact absurd hfalse (by simp)
    · rintro ⟨hlt, _⟩; omega
  · have hlt : r + 1 < g.length := (List.get?_eq_some.mp h).1
    simp only [getBottomLetter, h]
    constructor
    · intro he; exact ⟨hlt, (Option.some.injEq _ _ ▸ he).symm⟩
    · rintro ⟨_, hel⟩; subst hel; rfl

theorem getLeftLetter_eq_some {g : List (List Char)} {r c : Nat} {el : LetterObj} :
    getLeftLetter g r c = some el ↔
      ∃ c', c = c' + 1 ∧ c' < (g.getD r []).length ∧ el = getLetterObj g r c' := by
  cases c with
  | zero => simp [getLeftLetter]
  | succ c' =>
    rcases h : (g.getD r []).get? c' with _ | ch
    · have := List.get?_eq_none.mp h
      simp only [getLeftLetter, h]
      constructor
      · intro hfalse; exact absurd hfalse (by simp)
      · rintro ⟨c'', heq, hlt, _⟩; omega
    · have hlt : c' < (g.getD r []).length := (List.get?_eq_some.mp h).1
      simp only [getLeftLetter, h]
      constructor
      · intro he; exact ⟨c', rfl, hlt, (Option.some.injEq _ _ ▸ he).symm⟩
      · rintro ⟨c'', heq, _, hel⟩
        have : c'' = c' := by omega
        subst this; subst hel; rfl

theorem blocked_all_iff (blocked : List (Nat × Nat)) (r c : Nat) :
    (blocked.all fun bc => bc.1 != r || bc.2 != c) = true ↔ (r, c) ∉ blocked := by
  simp only [List.all_eq_true, Bool.or_eq_true, bne_iff_ne, ne_eq]
  constructor
  · intro h hmem
    rcases h _ hmem with h1 | h2
    · exact h1 rfl
    · exact h2 rfl
  · intro h bc hbc
    rcases Decidable.em (bc.1 = r) with h1 | h1
    · rcases Decidable.em (bc.2 = c) with h2 | h2
      · exfalso
        apply h
        have hbceq : bc = (r, c) := Prod.ext_iff.mpr ⟨h1, h2⟩
        rwa [hbceq] at hbc
      · exact Or.inr h2
    · exact Or.inl h1

theorem mem_candidates {g : List (List Char)} {r c : Nat} {ch : Char}
    {blocked : List (Nat × Nat)} {el : LetterObj} :
    el ∈ candidates g r c ch blocked ↔
      ((getTopLetter g r c = some el ∨ getRightLetter g r c = some el ∨
          getBottomLetter g r c = some el ∨ getLeftLetter g r c = some el) ∧
        el.letter = some ch ∧ (el.row, el.coll) ∉ blocked) := by
  simp only [candidates, List.mem_filter, List.mem_filterMap, id, List.mem_cons,
    List.mem_singleton, List.not_mem_nil, or_false, blocked_all_iff, beq_iff_eq]
  constructor
  · rintro ⟨⟨⟨a, ha, rfl⟩, hletter⟩, hblocked⟩
    rcases ha with h | h | h | h <;> [skip; skip; skip; skip] <;>
      exact ⟨by rw [← h]; tauto, hletter, hblocked⟩
  · rintro ⟨hdir, hletter, hblocked⟩
    exact ⟨⟨⟨some el, by tauto, rfl⟩, hletter⟩, hblocked⟩

/-- The coordinate-level characterisation of the eligible neighbours: an
object is among the `snakeFind` candidates exactly when it is the letter
object of a cell adjacent to `(r, c)` that stores `ch` and is not
blocked. -/
theorem mem_candidates_coords {g : List (List Char)} {r c : Nat} {ch : Char}
    {blocked : List (Nat × Nat)} {el : LetterObj} :
    el ∈ candidates g r c ch blocked ↔
      (el = getLetterObj g el.row el.coll ∧ Adjacent (r, c) (el.row, el.coll) ∧
        getCell g (el.row, el.coll) = some ch ∧ (el.row, el.coll) ∉ blocked) := by
  rw [mem_candidates]
  constructor
  · rintro ⟨hdir, hletter, hbl⟩
    rcases hdir with h | h | h | h
    · rw [getTopLetter_eq_some] at h
      obtain ⟨r', hreq, _, rfl⟩ := h
      exact ⟨rfl, Or.inr ⟨rfl, Or.inr hreq.symm⟩, by simpa using hletter, hbl⟩
    · rw [getRightLetter_eq_some] at h
      obtain ⟨_, rfl⟩ := h
      exact ⟨rfl, Or.inl ⟨rfl, Or.inl rfl⟩, by simpa using hletter, hbl⟩
    · rw [getBottomLetter_eq_some] at h
      obtain ⟨_, rfl⟩ := h
      exact ⟨rfl, Or.inr ⟨rfl, Or.inl rfl⟩, by simpa using hletter, hbl⟩
    · rw [getLeftLetter_eq_some] at h
      obtain ⟨c', hceq, _, rfl⟩ := h
      exact ⟨rfl, Or.inl ⟨rfl, Or.inr hceq.symm⟩, by simpa using hletter, hbl⟩
  · rintro ⟨hobj, hadj, hcell, hbl⟩
    have hlt := getCell_lt hcell
    refine ⟨?_, by rw [hobj]; simpa using hcell, hbl⟩
    simp only [Adjacent] at hadj
    rcases hadj with ⟨h1, h2 | h2⟩ | ⟨h1, h2 | h2⟩
    · -- right neighbour: `r = el.row`, `c + 1 = el.coll`
      right; left
      rw [getRightLetter_eq_some]
      refine ⟨by rw [h1, h2]; exact hlt.2, ?_⟩
      rw [hobj, h1, h2]
    · -- left neighbour: `r = el.row`, `el.coll + 1 = c`
      right; right; right
      rw [getLeftLetter_eq_some]
      exact ⟨el.coll, h2.symm, by rw [h1]; exact hlt.2, by rw [hobj, h1]; rfl⟩
    · -- bottom neighbour: `c = el.coll`, `r + 1 = el.row`
      right; right; left
      rw [getBottomLetter_eq_some]
      refine ⟨by rw [h2]; exact hlt.1, ?_⟩
      rw [hobj, h1, h2]
    · -- top neighbour: `c = el.coll`, `el.row + 1 = r`
      left
      rw [getTopLetter_eq_some]
      exact ⟨el.row, h2.symm, hlt.1, by rw [hobj, h1]; rfl⟩

/-- Correctness of the backtracking core: `snakeFind` succeeds from cell
`(r, c)` with the remaining query `q` and the blocked list `blocked` exactly
when some continuation path `p` exists that spells `q`, starts adjacent to
`(r, c)`, repeats no cell and avoids every blocked cell. -/
theorem snakeFind_iff (g : List (List Char)) (q : List Char) :
    ∀ (r c : Nat) (blocked : List (Nat × Nat)),
      snakeFind g r c q blocked = true ↔
        ∃ p : List (Nat × Nat), List.Chain' Adjacent ((r, c) :: p) ∧ p.Nodup ∧
          (∀ x ∈ p, x ∉ blocked) ∧ Spells g p q := by
  induction q with
  | nil =>
    intro r c blocked
    constructor
    · intro _
      exact ⟨[], List.chain'_singleton _, List.nodup_nil, by simp, List.Forall₂.nil⟩
    · intro _
      rfl
  | cons ch rest ih =>
    intro r c blocked
    constructor
    · intro h
      rw [snakeFind, List.any_eq_true] at h
      obtain ⟨el, hmem, hel⟩ := h
      rw [mem_candidates_coords] at hmem
      obtain ⟨_, hadj, hcell, hbl⟩ := hmem
      obtain ⟨p', hchain, hnodup, hdisj, hspell⟩ :=
        (ih el.row el.coll (blocked ++ [(el.row, el.coll)])).mp hel
      refine ⟨(el.row, el.coll) :: p', List.chain'_cons.mpr ⟨hadj, hchain⟩, ?_, ?_, ?_⟩
      · rw [List.nodup_cons]
        refine ⟨fun hmem' => ?_, hnodup⟩
        exact absurd (List.mem_append_right blocked (by simp)) (hdisj _ hmem')
      · intro x hx
        rcases List.mem_cons.mp hx with rfl | hx'
        · exact hbl
        · exact fun hxb => hdisj _ hx' (List.mem_append_left _ hxb)
      · exact List.Forall₂.cons hcell hspell
    · rintro ⟨p, hchain, hnodup, hdisj, hspell⟩
      obtain ⟨rc', p', hcell, hspell', rfl⟩ := List.forall₂_cons_right_iff.mp hspell
      have hadj : Adjacent (r, c) rc' := (List.chain'_cons.mp hchain).1
      have hchain' : List.Chain' Adjacent (rc' :: p') := (List.chain'_cons.mp hchain).2
      have hnodup' := List.nodup_cons.mp hnodup
      rw [snakeFind, List.any_eq_true]
      refine ⟨getLetterObj g rc'.1 rc'.2, ?_, ?_⟩
      · rw [mem_candidates_coords]
        exact ⟨rfl, by simpa using hadj, by simpa using hcell,
          by simpa using hdisj _ (List.mem_cons_self _ _)⟩
      · apply (ih rc'.1 rc'.2 (blocked ++ [(rc'.1, rc'.2)])).mpr
        refine ⟨p', by simpa using hchain', hnodup'.2, ?_, hspell'⟩
        intro x hx hxb
        rcases List.mem_append.mp hxb with hb | hb
        · exact hdisj _ (List.mem_cons_of_mem _ hx) hb
        · have hxeq : x = rc' := by simpa using hb
          exact hnodup'.1 (hxeq ▸ hx)

/-! ## The scan loop -/

/-- The scan never starts a search on the empty query: `charAt(0)` of the
empty string matches no one-character cell, so the double loop finds no
starting cell and falls through to `return false`. -/
theorem findStringCore_nil (g : List (List Char)) : findStringCore g [] = false := by
  rw [Bool.eq_false_iff]
  intro h
  simp only [findStringCore, List.head?_nil, List.tail_nil, List.any_eq_true,
    List.mem_range] at h
  obtain ⟨row, hrow, coll, hcoll, hx⟩ := h
  rw [Bool.and_eq_true] at hx
  obtain ⟨ch, hch⟩ := getCell_isSome_of_lt hrow hcoll
  have hch' : (g.getD row []).get? coll = some ch := hch
  rw [hch'] at hx
  exact absurd hx.1 (by simp)

/-- The scan on a non-empty query succeeds exactly when some cell stores the
first character and the backtracking search succeeds from it. -/
theorem findStringCore_cons_iff (g : List (List Char)) (ch : Char) (rest : List Char) :
    findStringCore g (ch :: rest) = true ↔
      ∃ r c, getCell g (r, c) = some ch ∧ snakeFind g r c rest [(r, c)] = true := by
  simp only [findStringCore, List.head?_cons, List.tail_cons, List.any_eq_true,
    List.mem_range, Bool.and_eq_true, beq_iff_eq]
  constructor
  · rintro ⟨r, _, c, _, h1, h2⟩
    exact ⟨r, c, h1, h2⟩
  · rintro ⟨r, c, h1, h2⟩
    have hb := getCell_lt h1
    exact ⟨r, hb.1, c, hb.2, h1, h2⟩

/-- Full functional correctness of the search core: it answers `true`
exactly when a simple snake path spelling the query exists. -/
theorem findStringCore_iff_snakePathExists (g : List (List Char)) (q : List Char) :
    findStringCore g q = true ↔ SnakePathExists g q := by
  cases q with
  | nil =>
    rw [findStringCore_nil]
    constructor
    · intro h
      exact absurd h (by simp)
    · rintro ⟨p, hne, _, _, hspell⟩
      exact absurd (List.forall₂_nil_right_iff.mp hspell) hne
  | cons ch rest =>
    rw [findStringCore_cons_iff]
    constructor
    · rintro ⟨r, c, hcell, hsnake⟩
      obtain ⟨p, hchain, hnodup, hdisj, hspell⟩ :=
        (snakeFind_iff g rest r c [(r, c)]).mp hsnake
      refine ⟨(r, c) :: p, by simp, hchain, ?_, List.Forall₂.cons hcell hspell⟩
      rw [List.nodup_cons]
      exact ⟨fun hmem => (hdisj _ hmem) (by simp), hnodup⟩
    · rintro ⟨p, hne, hchain, hnodup, hspell⟩
      obtain ⟨rc, p', hcell, hspell', rfl⟩ := List.forall₂_cons_right_iff.mp hspell
      refine ⟨rc.1, rc.2, by simpa using hcell, ?_⟩
      apply (snakeFind_iff g rest rc.1 rc.2 [(rc.1, rc.2)]).mpr
      have hnd := List.nodup_cons.mp hnodup
      refine ⟨p', by simpa using hchain, hnd.2, ?_, hspell'⟩
      intro x hx hxmem
      have hxeq : x = rc := by simpa using hxmem
      exact hnd.1 (hxeq ▸ hx)

/-- The wrapper in terms of the core characterisation. -/
theorem findStringInSnakingPuzzle_iff (puzzle : List String) (searchStr : String) :
    findStringInSnakingPuzzle puzzle searchStr = true ↔
      SnakePathExists (puzzle.map String.toList) searchStr.toList :=
  findStringCore_iff_snakePathExists _ _
/-! ## Counting cells and characters -/

theorem mem_cells {g : List (List Char)} {r c : Nat} :
    (r, c) ∈ cells g ↔ r < g.length ∧ c < (g.getD r []).length := by
  simp only [cells, List.mem_flatMap, List.mem_range, List.mem_map]
  constructor
  · rintro ⟨row, hrow, coll, hcoll, heq⟩
    obtain ⟨h1, h2⟩ := Prod.mk.injEq row coll r c ▸ heq
    subst h1
    subst h2
    exact ⟨hrow, hcoll⟩
  · rintro ⟨hr, hc⟩
    exact ⟨r, hr, c, hc, rfl⟩

theorem getCell_eq_some_cellChar {g : List (List Char)} {r c : Nat}
    (hr : r < g.length) (hc : c < (g.getD r []).length) :
    getCell g (r, c) = some (cellChar g (r, c)) := by
  obtain ⟨ch, hch⟩ := getCell_isSome_of_lt hr hc
  have hch' : (g.getD r []).get? c = some ch := hch
  have hcc : cellChar g (r, c) = ch := by
    simp only [cellChar]
    rw [List.getD_eq_getD_get?, hch']
    rfl
  rw [hcc]
  exact hch

theorem cellChar_eq_of_getCell {g : List (List Char)} {rc : Nat × Nat} {ch : Char}
    (h : getCell g rc = some ch) : cellChar g rc = ch := by
  simp only [getCell] at h
  simp only [cellChar]
  rw [List.getD_eq_getD_get?, h]
  rfl

/-- Peeling one row off the cell enumeration. -/
theorem cells_cons (row : List Char) (rest : List (List Char)) :
    cells (row :: rest) = ((List.range row.length).map fun c => ((0 : Nat), c)) ++
      (cells rest).map (fun rc => (rc.1 + 1, rc.2)) := by
  simp only [cells, List.length_cons, List.range_succ_eq_map, List.flatMap_cons]
  congr 1
  rw [List.flatMap_map, List.map_flatMap]
  apply List.flatMap_congr
  intro r _
  rw [List.map_map]
  rfl

/-- Reading every enumerated cell of the grid, row by row, yields exactly
the concatenation of the rows. -/
theorem cells_map_cellChar :
    ∀ g : List (List Char), (cells g).map (cellChar g) = g.flatten := by
  intro g
  induction g with
  | nil => rfl
  | cons row rest ih =>
    rw [cells_cons, List.map_append, List.flatten_cons]
    congr 1
    · rw [List.map_map]
      apply List.ext_getElem
      · simp
      · intro i h1 h2
        simp only [List.getElem_map, List.getElem_range, Function.comp_apply]
        exact List.getD_eq_getElem row default h2
    · rw [List.map_map]
      have hpt : ∀ rc ∈ cells rest,
          (cellChar (row :: rest) ∘ fun rc => (rc.1 + 1, rc.2)) rc = cellChar rest rc :=
        fun rc _ => rfl
      rw [List.map_congr_left hpt, ih]

/-- Every cell of a path that spells something is a valid cell of the
grid. -/
theorem spells_subset_cells {g : List (List Char)} {p : List (Nat × Nat)} {q : List Char}
    (h : Spells g p q) : ∀ x ∈ p, x ∈ cells g := by
  induction h with
  | nil => intro x hx; exact absurd hx (List.not_mem_nil x)
  | cons hr _ ih =>
    intro x hx
    rcases List.mem_cons.mp hx with rfl | hx'
    · have hb := getCell_lt (by exact hr)
      exact mem_cells.mpr hb
    · exact ih x hx'

/-- A path that spells `q` determines `q`: it is the list of characters
read at the path's cells. -/
theorem spells_eq_map {g : List (List Char)} {p : List (Nat × Nat)} {q : List Char}
    (h : Spells g p q) : q = p.map (cellChar g) := by
  induction h with
  | nil => rfl
  | cons hr _ ih => simp only [List.map_cons, ← ih, cellChar_eq_of_getCell hr]

/-- If the search core answers `true`, the query's characters form a
sub-multiset of the grid's characters: the witnessing path visits pairwise
distinct cells. -/
theorem findStringCore_multiset_le {g : List (List Char)} {q : List Char}
    (h : findStringCore g q = true) :
    (q : Multiset Char) ≤ (g.flatten : Multiset Char) := by
  obtain ⟨p, _, _, hnodup, hspell⟩ := (findStringCore_iff_snakePathExists g q).mp h
  rw [← cells_map_cellChar g, spells_eq_map hspell]
  apply Multiset.coe_le.mpr
  obtain ⟨l, hperm, hsub⟩ := hnodup.subperm (spells_subset_cells hspell)
  exact ⟨l.map (cellChar g), hperm.map _, hsub.map _⟩

/-- On a rectangular grid the cell enumeration has exactly
`rowCount * columnCount` entries. -/
theorem cells_length_of_rectangular {g : List (List Char)} (hrect : Rectangular g) :
    (cells g).length = rowCount g * columnCount g := by
  rw [cells, List.length_flatMap]
  have hpt : ∀ r ∈ List.range g.length,
      (List.length ∘ fun row =>
        List.map (fun coll => (row, coll)) (List.range (g.getD row []).length)) r
          = columnCount g := by
    intro r hr
    rw [List.mem_range] at hr
    simp only [Function.comp_apply]
    rw [List.length_map, List.length_range, List.getD_eq_getElem g [] hr]
    exact hrect _ (List.getElem_mem hr)
  rw [List.map_congr_left hpt, List.map_const', List.sum_replicate, List.length_range,
    smul_eq_mul]
  rfl

/-- A character occurs in the flattened grid exactly when some cell stores
it. -/
theorem mem_flatten_iff {g : List (List Char)} {ch : Char} :
    ch ∈ g.flatten ↔ ∃ r c, getCell g (r, c) = some ch := by
  rw [← cells_map_cellChar g, List.mem_map]
  constructor
  · rintro ⟨⟨r, c⟩, hmem, rfl⟩
    have hb := mem_cells.mp hmem
    exact ⟨r, c, getCell_eq_some_cellChar hb.1 hb.2⟩
  · rintro ⟨r, c, hch⟩
    have hb := getCell_lt hch
    exact ⟨(r, c), mem_cells.mpr hb, cellChar_eq_of_getCell hch⟩

/-- For a one-character query the search reduces to: does any cell store the
character? -/
theorem findStringCore_singleton_iff (g : List (List Char)) (ch : Char) :
    findStringCore g [ch] = true ↔ ch ∈ g.flatten := by
  rw [findStringCore_cons_iff, mem_flatten_iff]
  constructor
  · rintro ⟨r, c, hc, _⟩
    exact ⟨r, c, hc⟩
  · rintro ⟨r, c, hc⟩
    exact ⟨r, c, hc, rfl⟩

theorem adjacent_symm {a b : Nat × Nat} (h : Adjacent a b) : Adjacent b a := by
  rcases h with ⟨h1, h2⟩ | ⟨h1, h2⟩
  · exact Or.inl ⟨h1.symm, h2.symm⟩
  · exact Or.inr ⟨h1.symm, h2.symm⟩

/-- Reversing a snake path gives a snake path of the reversed word. -/
theorem snakePathExists_reverse_iff (g : List (List Char)) (q : List Char) :
    SnakePathExists g q.reverse ↔ SnakePathExists g q := by
  have key : ∀ q, SnakePathExists g q → SnakePathExists g q.reverse := by
    rintro q ⟨p, hne, hchain, hnodup, hspell⟩
    refine ⟨p.reverse, by simpa using hne, ?_, by rwa [List.nodup_reverse], ?_⟩
    · rw [List.chain'_reverse]
      exact hchain.imp fun a b hab => adjacent_symm hab
    · exact List.rel_reverse hspell
  constructor
  · intro h
    have h2 := key _ h
    rwa [List.reverse_reverse] at h2
  · exact key q

/-- The search core is insensitive to reversing the query. -/
theorem findStringCore_reverse (g : List (List Char)) (q : List Char) :
    findStringCore g q.reverse = findStringCore g q := by
  have hiff := (findStringCore_iff_snakePathExists g q.reverse).trans
    ((snakePathExists_reverse_iff g q).trans
      (findStringCore_iff_snakePathExists g q).symm)
  cases h1 : findStringCore g q.reverse <;> cases h2 : findStringCore g q <;> simp_all

instance (g : List (List Char)) : Decidable (Rectangular g) :=
  inferInstanceAs (Decidable (∀ row ∈ g, row.length = columnCount g))

/-! ## Claims -/

/-- C1: for every non-empty rectangular character grid and every query
string, `findStringInSnakingPuzzle` returns `true` iff a simple path —
distinct cells, consecutive ones four-directionally adjacent, no cell
repeated — spells the query exactly, character for character. -/
theorem c1_find_iff_snake_path (puzzle : List String) (searchStr : String)
    (_hne : puzzle ≠ []) (_hrect : Rectangular (puzzle.map String.toList)) :
    findStringInSnakingPuzzle puzzle searchStr = true ↔
      SnakePathExists (puzzle.map String.toList) searchStr.toList :=
  findStringInSnakingPuzzle_iff puzzle searchStr

theorem c1_find_iff_snake_path_witness :
    findStringInSnakingPuzzle ["AB", "CD"] "AB" = true ↔
      SnakePathExists (["AB", "CD"].map String.toList) "AB".toList :=
  c1_find_iff_snake_path ["AB", "CD"] "AB" (by decide) (by decide)

/-- C2 counterexample: on the non-empty rectangular grid `["A"]` the empty
query returns `false`, refuting the claim that an empty query returns
`true`: the scan compares every one-character cell with `charAt(0)` of the
empty string (the empty string) and never finds a match. -/
theorem c2_empty_query_counterexample :
    findStringInSnakingPuzzle ["A"] "" = false := by decide

/-- C2 amended: for every puzzle the empty query returns `false` — the scan
step requires a cell equal to the query's first character before `snakeFind`
(whose empty-remainder rule would succeed) is ever reached, and no cell
equals the empty `charAt(0)`. -/
theorem c2_empty_query_false (puzzle : List String) :
    findStringInSnakingPuzzle puzzle "" = false :=
  findStringCore_nil (puzzle.map String.toList)

/-- C3: the concrete 5×7 grid returns `true` for "ANGULAR", "ARRAY" and
"RED", and `false` for "FUNCTION" and "NULL". -/
theorem c3_concrete_grid :
    findStringInSnakingPuzzle ["ANGULAR", "REDNCAE", "RFIDTCL", "AGNEGSA", "YTIRTSP"]
        "ANGULAR" = true ∧
      findStringInSnakingPuzzle ["ANGULAR", "REDNCAE", "RFIDTCL", "AGNEGSA", "YTIRTSP"]
        "ARRAY" = true ∧
      findStringInSnakingPuzzle ["ANGULAR", "REDNCAE", "RFIDTCL", "AGNEGSA", "YTIRTSP"]
        "RED" = true ∧
      findStringInSnakingPuzzle ["ANGULAR", "REDNCAE", "RFIDTCL", "AGNEGSA", "YTIRTSP"]
        "FUNCTION" = false ∧
      findStringInSnakingPuzzle ["ANGULAR", "REDNCAE", "RFIDTCL", "AGNEGSA", "YTIRTSP"]
        "NULL" = false :=
  ⟨by decide, by decide, by decide, by decide, by decide⟩

/-- C4: on every well-formed (non-empty, rectangular) grid the function
terminates with a boolean — the embedding is total by structural recursion
on the query, and the result is always `true` or `false`. -/
theorem c4_total_boolean (puzzle : List String) (searchStr : String)
    (_hne : puzzle ≠ []) (_hrect : Rectangular (puzzle.map String.toList)) :
    findStringInSnakingPuzzle puzzle searchStr = true ∨
      findStringInSnakingPuzzle puzzle searchStr = false := by
  cases h : findStringInSnakingPuzzle puzzle searchStr
  · exact Or.inr rfl
  · exact Or.inl rfl

theorem c4_total_boolean_witness :
    findStringInSnakingPuzzle ["AB"] "B" = true ∨
      findStringInSnakingPuzzle ["AB"] "B" = false :=
  c4_total_boolean ["AB"] "B" (by decide) (by decide)

/-- C5: a query whose character multiset is not contained in the grid's
character multiset is never found — any witnessing path would visit
pairwise distinct cells, so the query would embed into the grid's
characters. -/
theorem c5_multiset_necessary (puzzle : List String) (searchStr : String)
    (_hrect : Rectangular (puzzle.map String.toList))
    (hnotle : ¬ ((searchStr.toList : Multiset Char) ≤ (gridChars puzzle : Multiset Char))) :
    findStringInSnakingPuzzle puzzle searchStr = false := by
  cases h : findStringInSnakingPuzzle puzzle searchStr
  · rfl
  · exact absurd (findStringCore_multiset_le h) hnotle

theorem c5_multiset_necessary_witness :
    findStringInSnakingPuzzle ["AB"] "Z" = false :=
  c5_multiset_necessary ["AB"] "Z" (by decide) (by decide)

/-- C6: a query of length 1 is found exactly when its character is stored in
some grid cell. -/
theorem c6_single_char (puzzle : List String) (ch : Char)
    (_hrect : Rectangular (puzzle.map String.toList)) :
    findStringInSnakingPuzzle puzzle (String.mk [ch]) = true ↔ ch ∈ gridChars puzzle :=
  findStringCore_singleton_iff (puzzle.map String.toList) ch

theorem c6_single_char_witness :
    findStringInSnakingPuzzle ["AB"] (String.mk ['A']) = true ↔ 'A' ∈ gridChars ["AB"] :=
  c6_single_char ["AB"] 'A' (by decide)

/-- C7: on a rectangular grid a query longer than
`rowCount * columnCount` is never found, because a witnessing path repeats
no cell and therefore cannot be longer than the number of cells. -/
theorem c7_too_long_query (puzzle : List String) (searchStr : String)
    (hrect : Rectangular (puzzle.map String.toList))
    (hlen : rowCount (puzzle.map String.toList) * columnCount (puzzle.map String.toList) <
      searchStr.length) :
    findStringInSnakingPuzzle puzzle searchStr = false := by
  cases h : findStringInSnakingPuzzle puzzle searchStr
  · rfl
  exfalso
  obtain ⟨p, _, _, hnodup, hspell⟩ := (findStringInSnakingPuzzle_iff _ _).mp h
  have hplen : p.length = searchStr.toList.length := hspell.length_eq
  have hsub : List.Subperm p (cells (puzzle.map String.toList)) :=
    hnodup.subperm (spells_subset_cells hspell)
  have hle := hsub.length_le
  rw [cells_length_of_rectangular hrect] at hle
  have hstr : searchStr.length = searchStr.toList.length := rfl
  omega

theorem c7_too_long_query_witness :
    findStringInSnakingPuzzle ["AB"] "AAA" = false :=
  c7_too_long_query ["AB"] "AAA" (by decide) (by decide)

/-- C8: the function is deterministic — two results of the same call are
equal.  The embedding captures this because the source is pure: it reads no
external state and its only mutation, `blockedCells`, is local to one call
and restored by `push`/`pop`. -/
theorem c8_deterministic (puzzle : List String) (searchStr : String) (b₁ b₂ : Bool)
    (h₁ : findStringInSnakingPuzzle puzzle searchStr = b₁)
    (h₂ : findStringInSnakingPuzzle puzzle searchStr = b₂) : b₁ = b₂ :=
  h₁.symm.trans h₂

theorem c8_deterministic_witness :
    findStringInSnakingPuzzle ["AB"] "AB" = true ∧ (true : Bool) = true :=
  ⟨by decide, c8_deterministic ["AB"] "AB" true true (by decide) (by decide)⟩

/-- C9 counterexample: cell `(0, 0)` of the ragged grid `[[], ['A']]` stores
nothing, yet the upward probe from `(1, 0)` does not return null:
`getTopLetter` checks only that the target row exists and returns an object
whose letter is `undefined` when the row is shorter than the probed
column. -/
theorem c9_null_counterexample :
    getCell [[], ['A']] (0, 0) = none ∧ getTopLetter [[], ['A']] 1 0 ≠ none :=
  ⟨rfl, by decide⟩

/-- C9 amended: on every puzzle, ragged rows included, the search totals to
a boolean, and every neighbour that survives the letter filter corresponds
to a genuinely stored character — probes of absent rows return null, and
probes into existing but shorter rows return an object with an absent
letter; both are treated as non-matching. -/
theorem c9_ragged_safe (puzzle : List String) (searchStr : String) :
    (findStringInSnakingPuzzle puzzle searchStr = true ∨
        findStringInSnakingPuzzle puzzle searchStr = false) ∧
      ∀ (r c : Nat) (ch : Char) (blocked : List (Nat × Nat)),
        ∀ el ∈ candidates (puzzle.map String.toList) r c ch blocked,
          getCell (puzzle.map String.toList) (el.row, el.coll) = some ch := by
  constructor
  · cases h : findStringInSnakingPuzzle puzzle searchStr
    · exact Or.inr rfl
    · exact Or.inl rfl
  · intro r c ch blocked el hel
    exact (mem_candidates_coords.mp hel).2.2.1

theorem c9_ragged_safe_witness :
    getCell (["A", "A"].map String.toList)
        ((⟨some 'A', 1, 0⟩ : LetterObj).row, (⟨some 'A', 1, 0⟩ : LetterObj).coll) =
      some 'A' :=
  (c9_ragged_safe ["A", "A"] "AA").2 0 0 'A' [] ⟨some 'A', 1, 0⟩ (by decide)

/-- C10: reversing the query does not change the answer — reversing a simple
path that spells the query yields a simple path spelling the reversed
query. -/
theorem c10_reverse_symmetric (puzzle : List String) (searchStr : String) :
    findStringInSnakingPuzzle puzzle (String.mk searchStr.toList.reverse) =
      findStringInSnakingPuzzle puzzle searchStr :=
  findStringCore_reverse (puzzle.map String.toList) searchStr.toList
